import Mathlib

/-!
Verification development for the ontology service: a shallow embedding of its
ontology store (directory scanning and loading), its query engine
(fetch_superclasses over an owlready2 style model), its label resolution and
its HTTP route layer, together with theorems settling the specified
properties.
-/

namespace OntologyService

/-- A class entity of an ontology model: its IRI (the full identifier), its
local name, and its declared labels, as exposed by the ontology library. -/
structure ClassEntity where
  iri : String
  name : String
  label : List String
deriving DecidableEq

/-- An in-memory ontology model: its name, the class entities it contains, and
the superclass edges between class entities (a pair (c, p) means c is a
subclass of p; after a successful reasoning step inferred edges are present
here as well, otherwise only the asserted ones). -/
structure OntologyModel where
  name : String
  entities : List ClassEntity
  subs : List (ClassEntity × ClassEntity)
deriving DecidableEq

/-- The store mapping ontology names to loaded models in insertion order,
modelling the module level dictionary loaded_ontologies. -/
abbrev Store := List (String × OntologyModel)

/-- Models the owlready2 search pattern used by fetch_superclasses, namely
iri = "*" ++ class_name: the leading star matches any prefix, so an entity
matches exactly when class_name equals a trailing portion of its IRI. -/
def iriMatches (class_name iri : String) : Bool :=
  class_name.data.isSuffixOf iri.data

/-- Models ontology.search_one(iri = "*" ++ class_name): the first entity of
the ontology whose IRI matches the pattern, or none when no entity matches. -/
def search_one (o : OntologyModel) (class_name : String) : Option ClassEntity :=
  o.entities.find? (fun e => iriMatches class_name e.iri)

section Closure

variable {α : Type} [DecidableEq α]

/-- Elements newly reachable from the set s in one step along the edges: the
targets of edges whose source is already in s and whose target is not. -/
def newElems (edges : List (α × α)) (s : List α) : List α :=
  ((edges.filter (fun e => decide (e.1 ∈ s) && decide (e.2 ∉ s))).map Prod.snd).dedup

/-- One saturation step: adjoin the newly reachable elements. -/
def closeStep (edges : List (α × α)) (s : List α) : List α :=
  s ++ newElems edges s

/-- Iterated saturation with explicit fuel. -/
def closeIter (edges : List (α × α)) : Nat → List α → List α
  | 0, s => s
  | n + 1, s => closeIter edges n (closeStep edges s)

end Closure

/-- Models owlready2 Class.ancestors(): every class reachable from cls along
the superclass edges of the model, the class itself included. Computed by
saturating the edge relation; fuel subs.length + 1 always reaches the closure
(see ancestors_closed below). -/
def ancestors (o : OntologyModel) (cls : ClassEntity) : List ClassEntity :=
  closeIter o.subs (o.subs.length + 1) [cls]

/-- The asserted (or, after reasoning, inferred) direct superclass relation of
a model. -/
def superEdge (o : OntologyModel) (c p : ClassEntity) : Prop :=
  (c, p) ∈ o.subs

/-- The ValueError raised by fetch_superclasses when no class matches. -/
inductive FetchErr where
  | valueError (msg : String)
deriving DecidableEq

/-- fetch_superclasses: search the ontology for the class name, raise a
ValueError when the search finds nothing, and otherwise return the class
together with all its ancestors. -/
def fetch_superclasses (o : OntologyModel) (class_name : String) :
    Except FetchErr (List ClassEntity) :=
  match search_one o class_name with
  | none =>
    .error (.valueError
      ("Class " ++ class_name ++ " not found in the ontology " ++ o.name ++ "."))
  | some cls => .ok (ancestors o cls)

/-- get_labels: the declared labels of the entity when there are any (list
truthiness in the source), and otherwise the one element list holding the
local name. -/
def get_labels (entity : ClassEntity) : List String :=
  if entity.label ≠ [] then entity.label else [entity.name]

/-- The per class resolution performed inline by the route handler, namely
labels[0] if labels else cls.name applied to labels = get_labels(cls). -/
def resolve_label (cls : ClassEntity) : String :=
  match get_labels cls with
  | [] => cls.name
  | l :: _ => l

/-- The key list of the store, in insertion order. -/
def storeKeys (store : Store) : List String :=
  store.map Prod.fst

/-- Python dict read access: the value bound to the key, if any. -/
def storeLookup (store : Store) (k : String) : Option OntologyModel :=
  (store.find? (fun p => p.1 == k)).map Prod.snd

/-- Python dict assignment d[k] = v: replace the binding in place when the key
is present, append a new binding otherwise. -/
def dictInsert (store : Store) (k : String) (v : OntologyModel) : Store :=
  if store.any (fun p => p.1 == k) then
    store.map (fun p => if p.1 == k then (k, v) else p)
  else store ++ [(k, v)]

/-- The filesystem as load_ontologies_from_directory observes it: whether the
scanned directory exists, the filenames os.listdir yields for it, and for each
filename whether get_ontology(...).load() succeeds with a model or raises. -/
structure FileSystem where
  dirExists : Bool
  entries : List String
  loadResult : String → Option OntologyModel

/-- Position of the last dot of the list, if any. -/
def rfindDot : List Char → Option Nat
  | [] => none
  | c :: rest =>
    match rfindDot rest with
    | some i => some (i + 1)
    | none => if c = '.' then some 0 else none

/-- Python os.path.splitext on a bare filename: the extension starts at the
last dot, except that a filename whose characters before that dot are all dots
is not split (leading dots belong to the base name); this keeps the part
before the extension. -/
def stemChars (cs : List Char) : List Char :=
  match rfindDot cs with
  | none => cs
  | some i => if (cs.take i).any (fun c => c != '.') then cs.take i else cs

/-- Derivation of the ontology name from the filename, namely
os.path.splitext(filename)[0]. -/
def splitextStem (filename : String) : String :=
  ⟨stemChars filename.data⟩

/-- The filename test of the scan loop: filename.endswith(".owl"). -/
def endsWithOwl (filename : String) : Bool :=
  ".owl".data.isSuffixOf filename.data

/-- What one run of load_ontologies_from_directory produces: the resulting
store, whether the missing directory was created, and how many per file load
failures were logged. -/
structure LoadOutcome where
  store : Store
  createdDir : Bool
  failuresLogged : Nat
deriving DecidableEq

/-- The body of the directory scan loop for one filename: entries not ending
in .owl are skipped; a successful load stores the model under the derived
name; a load failure is logged and the file is skipped. -/
def loadStep (fs : FileSystem) (acc : LoadOutcome) (filename : String) : LoadOutcome :=
  if endsWithOwl filename then
    match fs.loadResult filename with
    | some ont => { acc with store := dictInsert acc.store (splitextStem filename) ont }
    | none => { acc with failuresLogged := acc.failuresLogged + 1 }
  else acc

/-- load_ontologies_from_directory, started (as at application startup) from
an empty store: when the directory is missing it is created and the store is
left empty; otherwise every directory entry is scanned by loadStep. -/
def load_ontologies_from_directory (fs : FileSystem) : LoadOutcome :=
  if fs.dirExists = false then
    { store := [], createdDir := true, failuresLogged := 0 }
  else
    fs.entries.foldl (loadStep fs) { store := [], createdDir := false, failuresLogged := 0 }

/-- The .owl entries of the scanned directory. -/
def owlFiles (fs : FileSystem) : List String :=
  fs.entries.filter (fun f => endsWithOwl f)

/-- The .owl entries whose load succeeds. -/
def successFiles (fs : FileSystem) : List String :=
  (owlFiles fs).filter (fun f => (fs.loadResult f).isSome)

/-- Number of .owl entries whose load raises. -/
def failureCount (fs : FileSystem) : Nat :=
  ((owlFiles fs).filter (fun f => (fs.loadResult f).isNone)).length

/-- The HTTP outcome of the superclasses route: the JSON list of labels, or an
HTTPException with a status code and a detail string. -/
inductive RouteResult where
  | ok (superclasses : List String)
  | httpError (status : Nat) (detail : String)
deriving DecidableEq

/-- Detail string of the 404 raised for an unknown ontology name. -/
def unknownOntologyDetail (store : Store) (ontology_name : String) : String :=
  "Ontology " ++ ontology_name ++ " not found. Available ontologies: "
    ++ toString (storeKeys store)

/-- Detail string of the catch all 500 branch. -/
def internalErrorDetail : String :=
  "An unexpected error occurred while processing the request."

/-- get_superclasses_route: reject an unknown ontology name with a 404 before
any search runs; otherwise run fetch_superclasses on the stored model, mapping
its ValueError to a 404 whose detail is the error message, any other failure
to a 500, and a success to the list of resolved labels. -/
def get_superclasses_route (store : Store) (ontology_name class_name : String) : RouteResult :=
  if (storeKeys store).contains ontology_name = false then
    .httpError 404 (unknownOntologyDetail store ontology_name)
  else
    match storeLookup store ontology_name with
    | none => .httpError 500 internalErrorDetail
    | some ontology =>
      match fetch_superclasses ontology class_name with
      | .ok superclasses => .ok (superclasses.map resolve_label)
      | .error (.valueError msg) => .httpError 404 msg

/-- Behaviour of the external reasoner for one startup: whether sync_reasoner
succeeds, and the in place mutation of the loaded models it performs when it
does. -/
structure ReasonerSpec where
  succeeds : Bool
  infer : Store → Store

/-- State reached after the startup half of lifespan: the store the service
will answer queries from, how many times the reasoner was invoked, and whether
the degraded mode warning was logged. -/
structure StartupState where
  store : Store
  reasonerCalls : Nat
  degradedLogged : Bool

/-- The startup half of lifespan: load the ontologies; when the store is non
empty call the reasoner once, and when that call raises catch it, log the
degraded mode warning and keep the asserted only store. -/
def lifespan_startup (fs : FileSystem) (r : ReasonerSpec) : StartupState :=
  let outcome := load_ontologies_from_directory fs
  if outcome.store.isEmpty then
    { store := outcome.store, reasonerCalls := 0, degradedLogged := false }
  else if r.succeeds then
    { store := r.infer outcome.store, reasonerCalls := 1, degradedLogged := false }
  else
    { store := outcome.store, reasonerCalls := 1, degradedLogged := true }

/-- State passing form of the route handler: the handler only reads the module
level store (the writes to loaded_ontologies in the source happen during load
and at shutdown only), so its explicit state form returns the store it was
given. -/
def get_superclasses_route_st (store : Store) (ontology_name class_name : String) :
    RouteResult × Store :=
  (get_superclasses_route store ontology_name class_name, store)

/-- Runs a sequence of route queries, threading the store through each call. -/
def runQueries : Store → List (String × String) → List RouteResult × Store
  | store, [] => ([], store)
  | store, q :: qs =>
    let rs1 := get_superclasses_route_st store q.1 q.2
    let rs2 := runQueries rs1.2 qs
    (rs1.1 :: rs2.1, rs2.2)

/-- Example entity with two declared labels. -/
def dogEntity : ClassEntity :=
  ⟨"http://example.org/animals#Dog", "Dog", ["Dog", "Canine"]⟩

/-- Example entity with one declared label. -/
def mammalEntity : ClassEntity :=
  ⟨"http://example.org/animals#Mammal", "Mammal", ["Mammal"]⟩

/-- Example entity with no declared label. -/
def animalEntity : ClassEntity :=
  ⟨"http://example.org/animals#Animal_003", "Animal_003", []⟩

/-- Example ontology: Dog below Mammal below Animal_003. -/
def animalsOntology : OntologyModel :=
  ⟨"animals", [dogEntity, mammalEntity, animalEntity],
   [(dogEntity, mammalEntity), (mammalEntity, animalEntity)]⟩

/-- Example store holding the animals ontology. -/
def animalsStore : Store := [("animals", animalsOntology)]

/-- Predicate for entries that load successfully into the store. -/
def isSuccess (fs : FileSystem) (f : String) : Bool :=
  endsWithOwl f && (fs.loadResult f).isSome

/-- Predicate for entries whose load fails. -/
def isFailure (fs : FileSystem) (f : String) : Bool :=
  endsWithOwl f && (fs.loadResult f).isNone

def emptyModel : OntologyModel := ⟨"empty", [], []⟩

def fsDup : FileSystem := ⟨true, [".owl", ".owl.owl"], fun _ => some emptyModel⟩

def fsGood : FileSystem :=
  ⟨true, ["animals.owl", "broken.owl", "notes.txt"],
   fun f => if f = "animals.owl" then some animalsOntology else none⟩

def fsMissing : FileSystem := ⟨false, [], fun _ => none⟩

def fsAnimals : FileSystem :=
  ⟨true, ["animals.owl"], fun f => if f = "animals.owl" then some animalsOntology else none⟩

def failingReasoner : ReasonerSpec := ⟨false, id⟩

section ClosureLemmas

variable {α : Type} [DecidableEq α]

lemma mem_newElems {edges : List (α × α)} {s : List α} {b : α} :
    b ∈ newElems edges s ↔ (∃ a ∈ s, (a, b) ∈ edges) ∧ b ∉ s := by
  simp only [newElems, List.mem_dedup, List.mem_map, List.mem_filter,
    Bool.and_eq_true, decide_eq_true_eq]
  constructor
  · rintro ⟨⟨a, c⟩, ⟨hmem, ha, hc⟩, rfl⟩
    exact ⟨⟨a, ha, hmem⟩, hc⟩
  · rintro ⟨⟨a, ha, hmem⟩, hb⟩
    exact ⟨(a, b), ⟨hmem, ha, hb⟩, rfl⟩

lemma subset_closeStep (edges : List (α × α)) (s : List α) : s ⊆ closeStep edges s :=
  List.subset_append_left _ _

lemma closeStep_nodup {edges : List (α × α)} {s : List α} (h : s.Nodup) :
    (closeStep edges s).Nodup := by
  refine List.Nodup.append h (List.nodup_dedup _) ?_
  intro b hb hb2
  exact (mem_newElems.mp hb2).2 hb

lemma newElems_eq_nil_iff {edges : List (α × α)} {s : List α} :
    newElems edges s = [] ↔ ∀ a b, (a, b) ∈ edges → a ∈ s → b ∈ s := by
  rw [List.eq_nil_iff_forall_not_mem]
  constructor
  · intro h a b hab ha
    by_contra hb
    exact h b (mem_newElems.mpr ⟨⟨a, ha, hab⟩, hb⟩)
  · intro h b hb
    rcases mem_newElems.mp hb with ⟨⟨a, ha, hab⟩, hbs⟩
    exact hbs (h a b hab ha)

lemma closeStep_eq_self_iff {edges : List (α × α)} {s : List α} :
    closeStep edges s = s ↔ ∀ a b, (a, b) ∈ edges → a ∈ s → b ∈ s := by
  rw [← newElems_eq_nil_iff]
  constructor
  · intro h
    have hl := congrArg List.length h
    simp only [closeStep, List.length_append] at hl
    have : (newElems edges s).length = 0 := by omega
    exact List.eq_nil_of_length_eq_zero this
  · intro h
    simp [closeStep, h]

lemma length_closeStep_of_ne {edges : List (α × α)} {s : List α}
    (h : closeStep edges s ≠ s) :
    s.length + 1 ≤ (closeStep edges s).length := by
  have hne : newElems edges s ≠ [] := by
    intro hnil
    exact h (by simp [closeStep, hnil])
  have h1 : 0 < (newElems edges s).length := List.length_pos.mpr hne
  simp only [closeStep, List.length_append]
  omega

lemma closeStep_subset_union (edges : List (α × α)) (s : List α) :
    closeStep edges s ⊆ s ++ edges.map Prod.snd := by
  intro b hb
  rcases List.mem_append.mp hb with h1 | h1
  · exact List.mem_append.mpr (Or.inl h1)
  · rcases (mem_newElems.mp h1).1 with ⟨a, _, hab⟩
    exact List.mem_append.mpr (Or.inr (List.mem_map.mpr ⟨(a, b), hab, rfl⟩))

lemma closeIter_fixed {edges : List (α × α)} {s : List α}
    (h : closeStep edges s = s) (n : Nat) : closeIter edges n s = s := by
  induction n with
  | zero => rfl
  | succ n ih =>
    show closeIter edges n (closeStep edges s) = s
    rw [h]
    exact ih

lemma subset_closeIter (edges : List (α × α)) (n : Nat) :
    ∀ s : List α, s ⊆ closeIter edges n s := by
  induction n with
  | zero => exact fun s a ha => ha
  | succ n ih =>
    intro s a ha
    exact ih (closeStep edges s) (subset_closeStep edges s ha)

lemma closeIter_subset_union (edges : List (α × α)) (n : Nat) :
    ∀ s : List α, closeIter edges n s ⊆ s ++ edges.map Prod.snd := by
  induction n with
  | zero => exact fun s => List.subset_append_left _ _
  | succ n ih =>
    intro s b hb
    have h1 := ih (closeStep edges s) hb
    rcases List.mem_append.mp h1 with h2 | h2
    · exact closeStep_subset_union edges s h2
    · exact List.mem_append.mpr (Or.inr h2)

lemma closeIter_nodup (edges : List (α × α)) (n : Nat) :
    ∀ s : List α, s.Nodup → (closeIter edges n s).Nodup := by
  induction n with
  | zero => exact fun s h => h
  | succ n ih => exact fun s h => ih (closeStep edges s) (closeStep_nodup h)

lemma closeIter_progress (edges : List (α × α)) (n : Nat) :
    ∀ s : List α,
      closeStep edges (closeIter edges n s) = closeIter edges n s ∨
      s.length + n ≤ (closeIter edges n s).length := by
  induction n with
  | zero =>
    intro s
    right
    show s.length + 0 ≤ s.length
    omega
  | succ n ih =>
    intro s
    by_cases hc : closeStep edges s = s
    · left
      have h1 : closeIter edges (n + 1) s = s := by
        show closeIter edges n (closeStep edges s) = s
        rw [hc]
        exact closeIter_fixed hc n
      rw [h1, hc]
    · rcases ih (closeStep edges s) with h2 | h2
      · left
        exact h2
      · right
        have h3 := length_closeStep_of_ne hc
        show s.length + (n + 1) ≤ (closeIter edges n (closeStep edges s)).length
        omega

lemma closeIter_length_le {s : List α} (edges : List (α × α)) (h : s.Nodup) (n : Nat) :
    (closeIter edges n s).length ≤ (s ++ edges.map Prod.snd).length := by
  have h1 : (closeIter edges n s).Nodup := closeIter_nodup edges n s h
  have h2 : closeIter edges n s ⊆ (s ++ edges.map Prod.snd).dedup := fun a ha =>
    List.mem_dedup.mpr (closeIter_subset_union edges n s ha)
  have h4 := (List.Nodup.subperm h1 h2).length_le
  have h5 := (List.dedup_sublist (s ++ edges.map Prod.snd)).length_le
  omega

lemma closeIter_saturates {s : List α} (edges : List (α × α)) (h : s.Nodup) :
    closeStep edges (closeIter edges (edges.length + 1) s)
      = closeIter edges (edges.length + 1) s := by
  rcases closeIter_progress edges (edges.length + 1) s with h1 | h1
  · exact h1
  · exfalso
    have h2 := closeIter_length_le edges h (edges.length + 1)
    rw [List.length_append, List.length_map] at h2
    omega

end ClosureLemmas

lemma self_mem_ancestors (o : OntologyModel) (cls : ClassEntity) :
    cls ∈ ancestors o cls :=
  subset_closeIter o.subs (o.subs.length + 1) [cls] (List.mem_singleton_self cls)

lemma ancestors_closed (o : OntologyModel) (cls : ClassEntity) {a b : ClassEntity}
    (hab : (a, b) ∈ o.subs) (ha : a ∈ ancestors o cls) : b ∈ ancestors o cls := by
  have hfix := closeIter_saturates o.subs (List.nodup_singleton cls)
  rw [closeStep_eq_self_iff] at hfix
  exact hfix a b hab ha

lemma rtg_mem_ancestors (o : OntologyModel) (cls : ClassEntity) {p : ClassEntity}
    (h : Relation.ReflTransGen (superEdge o) cls p) : p ∈ ancestors o cls := by
  induction h with
  | refl => exact self_mem_ancestors o cls
  | tail h1 h2 ih => exact ancestors_closed o cls h2 ih

lemma mem_storeKeys_of_storeLookup_some {store : Store} {k : String} {o : OntologyModel}
    (h : storeLookup store k = some o) :
    k ∈ storeKeys store := by
  unfold storeLookup at h
  rcases Option.map_eq_some'.mp h with ⟨p, hp, hpo⟩
  have hmem := List.mem_of_find?_eq_some hp
  have hpk : p.1 = k := by
    have := List.find?_some hp
    simpa using this
  exact List.mem_map.mpr ⟨p, hmem, hpk⟩

lemma dictInsert_of_not_mem {store : Store} {k : String} (v : OntologyModel)
    (h : k ∉ storeKeys store) :
    dictInsert store k v = store ++ [(k, v)] := by
  unfold dictInsert
  rw [if_neg]
  intro hany
  rw [List.any_eq_true] at hany
  rcases hany with ⟨p, hp, hpk⟩
  rw [beq_iff_eq] at hpk
  exact h (List.mem_map.mpr ⟨p, hp, hpk⟩)

lemma route_ok_of_match {store : Store} {name : String} {o : OntologyModel}
    {class_name : String}
    (h : storeLookup store name = some o)
    (hm : ∃ e ∈ o.entities, iriMatches class_name e.iri = true) :
    ∃ labels, get_superclasses_route store name class_name = .ok labels := by
  have hk := mem_storeKeys_of_storeLookup_some h
  have hs : (search_one o class_name).isSome := List.find?_isSome.mpr hm
  rcases Option.isSome_iff_exists.mp hs with ⟨cls, hcls⟩
  exact ⟨(ancestors o cls).map resolve_label,
    by simp [get_superclasses_route, hk, h, fetch_superclasses, hcls]⟩

lemma successFiles_eq_filter (fs : FileSystem) :
    successFiles fs = fs.entries.filter (isSuccess fs) := by
  simp only [successFiles, owlFiles, List.filter_filter]
  refine List.filter_congr ?_
  intro a _
  simp [isSuccess, Bool.and_comm]

lemma failureCount_eq_filter (fs : FileSystem) :
    failureCount fs = (fs.entries.filter (isFailure fs)).length := by
  simp only [failureCount, owlFiles, List.filter_filter]
  congr 1
  refine List.filter_congr ?_
  intro a _
  simp [isFailure, Bool.and_comm]

lemma loadScan_spec (fs : FileSystem) (l : List String) :
    ∀ acc : LoadOutcome,
      ((l.filter (isSuccess fs)).map splitextStem).Nodup →
      (∀ f ∈ l, isSuccess fs f = true → splitextStem f ∉ storeKeys acc.store) →
      storeKeys (l.foldl (loadStep fs) acc).store
          = storeKeys acc.store ++ (l.filter (isSuccess fs)).map splitextStem
      ∧ (l.foldl (loadStep fs) acc).failuresLogged
          = acc.failuresLogged + (l.filter (isFailure fs)).length
      ∧ (l.foldl (loadStep fs) acc).createdDir = acc.createdDir := by
  induction l with
  | nil =>
    intro acc h1 h2
    simp
  | cons f rest ih =>
    intro acc h1 h2
    by_cases howl : endsWithOwl f = true
    · cases hload : fs.loadResult f with
      | some ont =>
        have hsucc : isSuccess fs f = true := by simp [isSuccess, howl, hload]
        have hnotfail : isFailure fs f = false := by simp [isFailure, hload]
        have hstep : loadStep fs acc f
            = { acc with store := dictInsert acc.store (splitextStem f) ont } := by
          simp [loadStep, howl, hload]
        have hnotmem : splitextStem f ∉ storeKeys acc.store :=
          h2 f (List.mem_cons_self f rest) hsucc
        have hkeys : storeKeys (dictInsert acc.store (splitextStem f) ont)
            = storeKeys acc.store ++ [splitextStem f] := by
          rw [dictInsert_of_not_mem ont hnotmem]
          simp [storeKeys]
        have hfiltercons : (f :: rest).filter (isSuccess fs)
            = f :: rest.filter (isSuccess fs) := by
          simp [List.filter_cons, hsucc]
        rw [hfiltercons] at h1
        simp only [List.map_cons, List.nodup_cons] at h1
        have ihres := ih { acc with store := dictInsert acc.store (splitextStem f) ont }
          h1.2 ?_
        · have hfold : (f :: rest).foldl (loadStep fs) acc
              = rest.foldl (loadStep fs) { acc with store := dictInsert acc.store (splitextStem f) ont } := by
            rw [List.foldl_cons, hstep]
          refine ⟨?_, ?_, ?_⟩
          · rw [hfold, ihres.1, hkeys, hfiltercons]
            simp
          · rw [hfold, ihres.2.1]
            simp [List.filter_cons, hnotfail]
          · rw [hfold, ihres.2.2]
        · intro g hg hgsucc
          rw [hkeys]
          intro hmem
          rcases List.mem_append.mp hmem with hm1 | hm1
          · exact h2 g (List.mem_cons_of_mem f hg) hgsucc hm1
          · rw [List.mem_singleton] at hm1
            have hgfilter : g ∈ rest.filter (isSuccess fs) := List.mem_filter.mpr ⟨hg, hgsucc⟩
            exact h1.1 (hm1 ▸ List.mem_map.mpr ⟨g, hgfilter, rfl⟩)
      | none =>
        have hnotsucc : isSuccess fs f = false := by simp [isSuccess, hload]
        have hfail : isFailure fs f = true := by simp [isFailure, howl, hload]
        have hstep : loadStep fs acc f
            = { acc with failuresLogged := acc.failuresLogged + 1 } := by
          simp [loadStep, howl, hload]
        have hfiltercons : (f :: rest).filter (isSuccess fs) = rest.filter (isSuccess fs) := by
          simp [List.filter_cons, hnotsucc]
        rw [hfiltercons] at h1
        have ihres := ih { acc with failuresLogged := acc.failuresLogged + 1 } h1
          (fun g hg hgsucc => h2 g (List.mem_cons_of_mem f hg) hgsucc)
        have hfold : (f :: rest).foldl (loadStep fs) acc
            = rest.foldl (loadStep fs) { acc with failuresLogged := acc.failuresLogged + 1 } := by
          rw [List.foldl_cons, hstep]
        refine ⟨?_, ?_, ?_⟩
        · rw [hfold, ihres.1, hfiltercons]
        · rw [hfold, ihres.2.1]
          simp [List.filter_cons, hfail]
          omega
        · rw [hfold, ihres.2.2]
    · have hnotsucc : isSuccess fs f = false := by
        simp [isSuccess, Bool.eq_false_iff.mpr howl]
      have hnotfail : isFailure fs f = false := by
        simp [isFailure, Bool.eq_false_iff.mpr howl]
      have hstep : loadStep fs acc f = acc := by
        simp [loadStep, howl]
      have hfiltercons : (f :: rest).filter (isSuccess fs) = rest.filter (isSuccess fs) := by
        simp [List.filter_cons, hnotsucc]
      rw [hfiltercons] at h1
      have ihres := ih acc h1 (fun g hg hgsucc => h2 g (List.mem_cons_of_mem f hg) hgsucc)
      have hfold : (f :: rest).foldl (loadStep fs) acc = rest.foldl (loadStep fs) acc := by
        rw [List.foldl_cons, hstep]
      refine ⟨?_, ?_, ?_⟩
      · rw [hfold, ihres.1, hfiltercons]
      · rw [hfold, ihres.2.1]
        simp [List.filter_cons, hnotfail]
      · rw [hfold, ihres.2.2]

/-- C1: fetch_superclasses resolves the class by suffix matching on entity
identifiers: whatever search_one selects is an entity of the ontology whose
IRI ends with class_name, and whenever some entity matches, search_one selects
a single matching one. -/
theorem fetch_superclasses_suffix_match (o : OntologyModel) (class_name : String) :
    (∀ cls, search_one o class_name = some cls →
        cls ∈ o.entities ∧ ∃ pre, cls.iri.data = pre ++ class_name.data)
    ∧ ((∃ e ∈ o.entities, iriMatches class_name e.iri = true) →
        ∃ cls, search_one o class_name = some cls ∧ iriMatches class_name cls.iri = true) := by
  constructor
  · intro cls h
    refine ⟨List.mem_of_find?_eq_some h, ?_⟩
    have h2 := List.find?_some h
    rw [iriMatches] at h2
    rcases List.isSuffixOf_iff_suffix.mp h2 with ⟨pre, hpre⟩
    exact ⟨pre, hpre.symm⟩
  · intro hm
    have hs : (search_one o class_name).isSome := List.find?_isSome.mpr hm
    rcases Option.isSome_iff_exists.mp hs with ⟨cls, hcls⟩
    have hcls2 : o.entities.find? (fun e => iriMatches class_name e.iri) = some cls := hcls
    have hp := @List.find?_some ClassEntity (fun e => iriMatches class_name e.iri) cls o.entities hcls2
    exact ⟨cls, hcls, hp⟩

theorem fetch_superclasses_suffix_match_witness :
    dogEntity ∈ animalsOntology.entities
    ∧ ∃ pre, dogEntity.iri.data = pre ++ "Dog".data :=
  (fetch_superclasses_suffix_match animalsOntology "Dog").1 dogEntity (by decide)

/-- C2: for a loaded ontology, fetch_superclasses fails with its ValueError
exactly when no entity of the ontology matches the class name, and the route
surfaces that failure as a 404 whose detail is the error message. -/
theorem fetch_superclasses_notfound_iff_http404 (store : Store) (name : String)
    (o : OntologyModel) (class_name : String)
    (h : storeLookup store name = some o) :
    ((∃ msg, fetch_superclasses o class_name = .error (.valueError msg)) ↔
      ∀ e ∈ o.entities, iriMatches class_name e.iri = false)
    ∧ ∀ msg, fetch_superclasses o class_name = .error (.valueError msg) →
        get_superclasses_route store name class_name = .httpError 404 msg := by
  have hk := mem_storeKeys_of_storeLookup_some h
  constructor
  · constructor
    · rintro ⟨msg, hmsg⟩ e he
      cases hs : search_one o class_name with
      | none =>
        have h2 := List.find?_eq_none.mp hs e he
        simpa using h2
      | some cls =>
        exfalso
        simp [fetch_superclasses, hs] at hmsg
    · intro hall
      have hs : search_one o class_name = none :=
        List.find?_eq_none.mpr (fun e he => by simp [hall e he])
      exact ⟨"Class " ++ class_name ++ " not found in the ontology " ++ o.name ++ ".",
        by simp [fetch_superclasses, hs]⟩
  · intro msg hmsg
    simp [get_superclasses_route, hk, h, hmsg]

theorem fetch_superclasses_notfound_iff_http404_witness :
    (∀ e ∈ animalsOntology.entities, iriMatches "Zebra" e.iri = false)
    ∧ get_superclasses_route animalsStore "animals" "Zebra"
        = .httpError 404 "Class Zebra not found in the ontology animals." := by
  have h := fetch_superclasses_notfound_iff_http404 animalsStore "animals"
    animalsOntology "Zebra" (by decide)
  exact ⟨h.1.mp ⟨"Class Zebra not found in the ontology animals.", by rfl⟩,
    h.2 "Class Zebra not found in the ontology animals." (by rfl)⟩

/-- C3: when the class name matches, fetch_superclasses succeeds with the
ancestor set of the matched class, and that set contains the matched class
itself and every ancestor reachable along the superclass edges of the
model. -/
theorem fetch_superclasses_reflexive_transitive (o : OntologyModel) (class_name : String)
    (cls : ClassEntity) (h : search_one o class_name = some cls) :
    fetch_superclasses o class_name = .ok (ancestors o cls)
    ∧ cls ∈ ancestors o cls
    ∧ ∀ p, Relation.ReflTransGen (superEdge o) cls p → p ∈ ancestors o cls :=
  ⟨by simp [fetch_superclasses, h], self_mem_ancestors o cls,
   fun _ hp => rtg_mem_ancestors o cls hp⟩

theorem fetch_superclasses_reflexive_transitive_witness :
    fetch_superclasses animalsOntology "Dog" = .ok (ancestors animalsOntology dogEntity)
    ∧ dogEntity ∈ ancestors animalsOntology dogEntity
    ∧ animalEntity ∈ ancestors animalsOntology dogEntity := by
  have h := fetch_superclasses_reflexive_transitive animalsOntology "Dog" dogEntity (by decide)
  refine ⟨h.1, h.2.1, h.2.2 animalEntity ?_⟩
  exact Relation.ReflTransGen.tail
    (Relation.ReflTransGen.tail Relation.ReflTransGen.refl
      (show (dogEntity, mammalEntity) ∈ animalsOntology.subs by decide))
    (show (mammalEntity, animalEntity) ∈ animalsOntology.subs by decide)

/-- C4 (amended): the scan stores one entry per distinct derived name of the
successfully loading .owl files, so when those derived names are pairwise
distinct the store has exactly one entry per successful file; the number of
logged failures is the number of .owl files whose load raised; the scan
catches per file failures and raises nothing. -/
theorem load_counts_of_distinct_names (fs : FileSystem)
    (hdir : fs.dirExists = true)
    (hnodup : ((successFiles fs).map splitextStem).Nodup) :
    storeKeys (load_ontologies_from_directory fs).store = (successFiles fs).map splitextStem
    ∧ (load_ontologies_from_directory fs).store.length = (successFiles fs).length
    ∧ (load_ontologies_from_directory fs).failuresLogged = failureCount fs := by
  have hload : load_ontologies_from_directory fs
      = fs.entries.foldl (loadStep fs) ⟨[], false, 0⟩ := by
    simp [load_ontologies_from_directory, hdir]
  have h1 : ((fs.entries.filter (isSuccess fs)).map splitextStem).Nodup := by
    rw [← successFiles_eq_filter]
    exact hnodup
  have h2 : ∀ f ∈ fs.entries, isSuccess fs f = true →
      splitextStem f ∉ storeKeys (⟨[], false, 0⟩ : LoadOutcome).store := by
    intro f _ _ hmem
    simp [storeKeys] at hmem
  have hspec := loadScan_spec fs fs.entries ⟨[], false, 0⟩ h1 h2
  have hkeys : storeKeys (load_ontologies_from_directory fs).store
      = (successFiles fs).map splitextStem := by
    rw [hload, hspec.1, ← successFiles_eq_filter]
    simp [storeKeys]
  refine ⟨hkeys, ?_, ?_⟩
  · have hlen := congrArg List.length hkeys
    simpa [storeKeys] using hlen
  · rw [hload, hspec.2.1, failureCount_eq_filter]
    simp

/-- C4 counterexample: a directory holding the two loadable ontology files
named .owl and .owl.owl gives both the derived name .owl, because Python
os.path.splitext does not split a base name whose part before the last dot is
all dots; the second load then overwrites the first, and the store ends with
one entry although two files loaded successfully and none failed. -/
theorem load_dup_stem_counterexample :
    (successFiles fsDup).length = 2
    ∧ failureCount fsDup = 0
    ∧ (load_ontologies_from_directory fsDup).store.length = 1
    ∧ (load_ontologies_from_directory fsDup).store.length ≠ (successFiles fsDup).length := by
  decide

theorem load_counts_of_distinct_names_witness :
    storeKeys (load_ontologies_from_directory fsGood).store = ["animals"]
    ∧ (load_ontologies_from_directory fsGood).store.length = 1
    ∧ (load_ontologies_from_directory fsGood).failuresLogged = 1 := by
  have h := load_counts_of_distinct_names fsGood rfl (by decide)
  refine ⟨?_, ?_, ?_⟩
  · rw [h.1]
    decide
  · rw [h.2.1]
    decide
  · rw [h.2.2]
    decide

/-- C5: on a missing directory path, the loader creates the directory, yields
an empty store, logs no failure and raises nothing. -/
theorem load_missing_directory (fs : FileSystem) (h : fs.dirExists = false) :
    load_ontologies_from_directory fs
      = { store := [], createdDir := true, failuresLogged := 0 } := by
  simp [load_ontologies_from_directory, h]

theorem load_missing_directory_witness :
    load_ontologies_from_directory fsMissing
      = { store := [], createdDir := true, failuresLogged := 0 } :=
  load_missing_directory fsMissing rfl

/-- C6: a request naming an ontology that is not a key of the store is
answered with the 404 of the membership guard, for every class name alike, so
the class search is never reached. -/
theorem unknown_ontology_rejected_first (store : Store) (ontology_name : String)
    (h : ontology_name ∉ storeKeys store) :
    (∀ class_name, get_superclasses_route store ontology_name class_name
        = .httpError 404 (unknownOntologyDetail store ontology_name))
    ∧ ∀ cn1 cn2, get_superclasses_route store ontology_name cn1
        = get_superclasses_route store ontology_name cn2 := by
  have hmain : ∀ class_name, get_superclasses_route store ontology_name class_name
      = .httpError 404 (unknownOntologyDetail store ontology_name) := by
    intro class_name
    simp [get_superclasses_route, h]
  exact ⟨hmain, fun cn1 cn2 => (hmain cn1).trans (hmain cn2).symm⟩

theorem unknown_ontology_rejected_first_witness :
    get_superclasses_route animalsStore "plants" "Dog"
      = .httpError 404 (unknownOntologyDetail animalsStore "plants") :=
  (unknown_ontology_rejected_first animalsStore "plants" (by decide)).1 "Dog"

/-- C7: the label resolution of the route is a total function yielding, for
every class entity, its first declared label when it has labels and its local
name otherwise. -/
theorem label_resolution_policy (cls : ClassEntity) :
    resolve_label cls = cls.label.headD cls.name := by
  unfold resolve_label get_labels
  by_cases h : cls.label = []
  · simp [h]
  · cases hl : cls.label with
    | nil => exact absurd hl h
    | cons l rest => simp [h, hl]

/-- C10: get_labels never returns the empty list, so the fallback arm
labels[0] if labels else cls.name of the route can never take its else
branch: the resolved string is always the head of get_labels. -/
theorem get_labels_never_empty (cls : ClassEntity) :
    ∃ l rest, get_labels cls = l :: rest ∧ resolve_label cls = l := by
  unfold resolve_label get_labels
  by_cases h : cls.label = []
  · exact ⟨cls.name, [], by simp [h], by simp [h]⟩
  · cases hl : cls.label with
    | nil => exact absurd hl h
    | cons l rest => exact ⟨l, rest, by simp [h, hl], by simp [h, hl]⟩

/-- C8: the reasoner is invoked exactly once at startup when the loaded store
is non empty and not at all when it is empty; when the invocation fails the
failure is caught, the degraded mode warning is logged, the service keeps the
asserted only store, and queries over that store still succeed whenever a
class matches. -/
theorem reasoner_once_and_degraded_mode (fs : FileSystem) (r : ReasonerSpec) :
    ((lifespan_startup fs r).reasonerCalls
        = if (load_ontologies_from_directory fs).store.isEmpty then 0 else 1)
    ∧ (r.succeeds = false →
        (lifespan_startup fs r).store = (load_ontologies_from_directory fs).store
        ∧ ((load_ontologies_from_directory fs).store.isEmpty = false →
            (lifespan_startup fs r).degradedLogged = true)
        ∧ ∀ name o class_name,
            storeLookup (lifespan_startup fs r).store name = some o →
            (∃ e ∈ o.entities, iriMatches class_name e.iri = true) →
            ∃ labels, get_superclasses_route (lifespan_startup fs r).store name class_name
              = .ok labels) := by
  constructor
  · by_cases he : (load_ontologies_from_directory fs).store.isEmpty
    · simp [lifespan_startup, he]
    · by_cases hr : r.succeeds = true <;> simp [lifespan_startup, he, hr]
  · intro hrf
    have hstore : (lifespan_startup fs r).store = (load_ontologies_from_directory fs).store := by
      by_cases he : (load_ontologies_from_directory fs).store.isEmpty <;>
        simp [lifespan_startup, he, hrf]
    refine ⟨hstore, ?_, fun name o class_name hlk hm => route_ok_of_match hlk hm⟩
    intro hne
    simp [lifespan_startup, hne, hrf]

theorem reasoner_once_and_degraded_mode_witness :
    (lifespan_startup fsAnimals failingReasoner).reasonerCalls = 1
    ∧ (lifespan_startup fsAnimals failingReasoner).store
        = (load_ontologies_from_directory fsAnimals).store
    ∧ (lifespan_startup fsAnimals failingReasoner).degradedLogged = true
    ∧ ∃ labels, get_superclasses_route (lifespan_startup fsAnimals failingReasoner).store
        "animals" "Dog" = .ok labels := by
  have h := reasoner_once_and_degraded_mode fsAnimals failingReasoner
  have h2 := h.2 rfl
  refine ⟨?_, h2.1, h2.2.1 (by decide), ?_⟩
  · rw [h.1]
    decide
  · refine h2.2.2 "animals" animalsOntology "Dog" ?_ ⟨dogEntity, by decide, by decide⟩
    rw [h2.1]
    decide

/-- C9: queries never mutate the store: running any sequence of route calls in
their state passing form hands back the very store it started from, so the key
set and the model bound to each key are unchanged by every call. -/
theorem queries_preserve_store (store : Store) (qs : List (String × String)) :
    (runQueries store qs).2 = store
    ∧ storeKeys (runQueries store qs).2 = storeKeys store
    ∧ ∀ name, storeLookup (runQueries store qs).2 name = storeLookup store name := by
  have h : ∀ (qs : List (String × String)) (store : Store), (runQueries store qs).2 = store := by
    intro qs
    induction qs with
    | nil => intro store; rfl
    | cons q rest ih =>
      intro store
      show (runQueries store rest).2 = store
      exact ih store
  exact ⟨h qs store, by rw [h qs store], fun name => by rw [h qs store]⟩

end OntologyService
